import Mathlib

/-!
# Verification of the cooperative task scheduler (os3, lab1)

Shallow embedding of `src/os3-ref/src/task/mod.rs` and
`src/os3-ref/src/task/info.rs`: the `TaskManager` data model, the
round-robin dispatch algorithm, the suspend/exit transitions and the
per-task syscall/timing telemetry.

Modelling conventions:
* Machine integers become `Nat`.  The syscall counters are `u32` in the
  source, so an increment is `(v + 1) % 2^32` (`u32Mod`).  The clock
  readings (`get_time_us`, a `usize`) are passed in explicitly as `now`
  arguments, since the clock is an external collaborator.
* `BTreeMap<u16, u32>` becomes an association list kept strictly sorted
  by key (`btreeIncr` inserts exactly where `BTreeMap::entry` would,
  `or_insert(0)` followed by `+= 1`).
* A Rust `panic!` (batch completion, or out-of-bounds indexing of the
  dense `[u32; MAX_SYSCALL_NUM]` array) becomes an explicit
  `RunNextResult.panicked` / `Option.none` result.
* `crate::config::MAX_APP_NUM` and `crate::config::MAX_SYSCALL_NUM` are
  build-time constants defined outside the given sources, so the
  definitions take them as parameters (`cap`, `M`).
* The saved register context (`TaskContext`, `__switch`) is opaque
  machine state that never influences scheduling decisions; the model
  keeps only the fields the claims are about (`task_status`,
  `syscall_times`, `init_time`).
* `TaskManager { num_app, inner: UPSafeCell { tasks, current_task } }`
  is flattened into one record: the `UPSafeCell` is a single-owner
  runtime borrow check with no effect on the sequential semantics.
-/

/-- `TaskStatus` from task.rs: `UnInit`, `Ready`, `Running`, `Exited`. -/
inductive TaskStatus where
  | UnInit
  | Ready
  | Running
  | Exited
deriving DecidableEq, Repr

/-- One task control block: status, sparse syscall counters
(`BTreeMap<u16, u32>` as a sorted association list) and the first-run
timestamp `init_time` (`0` doubles as the "never ran" sentinel, exactly
as in the source). -/
structure TaskControlBlock where
  task_status : TaskStatus
  syscall_times : List (Nat × Nat)
  init_time : Nat
deriving DecidableEq, Repr

/-- The flattened `TaskManager` + `TaskManagerInner` state. -/
structure TaskManagerState where
  num_app : Nat
  tasks : List TaskControlBlock
  current_task : Nat
deriving DecidableEq, Repr

/-- The `TaskInfo` snapshot from info.rs; `syscall_times` is the dense
array `[u32; MAX_SYSCALL_NUM]` as a list of length `MAX_SYSCALL_NUM`. -/
structure TaskInfo where
  status : TaskStatus
  syscall_times : List Nat
  time : Nat
deriving DecidableEq, Repr

/-- Reduction modulo `2^32`, the width of the `u32` syscall counters. -/
def u32Mod (x : Nat) : Nat := x % 4294967296

/-- The default TCB used when indexing out of range (the Rust code
would panic there; all reachable indices stay in range). -/
def defaultTCB : TaskControlBlock :=
  { task_status := TaskStatus.UnInit, syscall_times := [], init_time := 0 }

/-- `inner.tasks[i]`. -/
def getTask (s : TaskManagerState) (i : Nat) : TaskControlBlock :=
  s.tasks.getD i defaultTCB

/-- `inner.tasks[i].task_status`. -/
def statusAt (s : TaskManagerState) (i : Nat) : TaskStatus :=
  (getTask s i).task_status

/-- `inner.tasks[i].init_time`. -/
def initTimeAt (s : TaskManagerState) (i : Nat) : Nat :=
  (getTask s i).init_time

/-- `map.entry(id).or_insert(0); *val += 1` on a `BTreeMap<u16, u32>`
kept as a strictly key-sorted association list: inserts `(id, 1)` at
its sorted position when absent, bumps the `u32` value modulo `2^32`
when present. -/
def btreeIncr : List (Nat × Nat) → Nat → List (Nat × Nat)
  | [], id => [(id, u32Mod 1)]
  | (k, v) :: rest, id =>
    if id < k then (id, u32Mod 1) :: (k, v) :: rest
    else if id = k then (k, u32Mod (v + 1)) :: rest
    else (k, v) :: btreeIncr rest id

/-- Lookup in the counter map; absent keys read as `0`. -/
def btreeGet : List (Nat × Nat) → Nat → Nat
  | [], _ => 0
  | (k, v) :: rest, id => if id = k then v else btreeGet rest id

/-- `TaskManager::run_first_task` (state part): marks slot 0 `Running`
and stamps `init_time` with the current clock reading; the subsequent
`__switch` never returns but does not touch manager state. -/
def run_first_task (now : Nat) (s : TaskManagerState) : TaskManagerState :=
  let task0 := getTask s 0
  let task0 := { task0 with task_status := TaskStatus.Running, init_time := now }
  { s with tasks := s.tasks.set 0 task0 }

/-- `TaskManager::mark_current_suspended`: sets the current task's
status to `Ready` (no check of its previous status). -/
def mark_current_suspended (s : TaskManagerState) : TaskManagerState :=
  let t := getTask s s.current_task
  let t := { t with task_status := TaskStatus.Ready }
  { s with tasks := s.tasks.set s.current_task t }

/-- `TaskManager::mark_current_exited`: sets the current task's status
to `Exited` (no check of its previous status). -/
def mark_current_exited (s : TaskManagerState) : TaskManagerState :=
  let t := getTask s s.current_task
  let t := { t with task_status := TaskStatus.Exited }
  { s with tasks := s.tasks.set s.current_task t }

/-- `TaskManager::find_next_task`:
`(current + 1..current + num_app + 1).map(|id| id % num_app).find(|id| tasks[*id].task_status == Ready)`. -/
def find_next_task (s : TaskManagerState) : Option Nat :=
  (((List.range s.num_app).map
      (fun k => (s.current_task + 1 + k) % s.num_app)).find?
    (fun id => decide (statusAt s id = TaskStatus.Ready)))

/-- Result of `TaskManager::run_next_task`: either a context switch
into the updated state, or the `panic!` that ends the kernel. -/
inductive RunNextResult where
  | switched : TaskManagerState → RunNextResult
  | panicked : String → RunNextResult
deriving DecidableEq, Repr

/-- `TaskManager::run_next_task`: dispatches the task found by
`find_next_task` (marks it `Running`, stamps `init_time` if still `0`,
updates `current_task`) or panics with "All applications completed!". -/
def run_next_task (now : Nat) (s : TaskManagerState) : RunNextResult :=
  match find_next_task s with
  | some next =>
    let t := getTask s next
    let t := { t with
               task_status := TaskStatus.Running,
               init_time := if t.init_time = 0 then now else t.init_time }
    RunNextResult.switched
      { s with tasks := s.tasks.set next t, current_task := next }
  | none => RunNextResult.panicked "All applications completed!"

/-- `TaskManager::increase_syscall_count`: bumps the current task's
counter for `syscall_id` (a `u16`, accepted without any range check). -/
def increase_syscall_count (syscall_id : Nat) (s : TaskManagerState) :
    TaskManagerState :=
  let t := getTask s s.current_task
  let t := { t with syscall_times := btreeIncr t.syscall_times syscall_id }
  { s with tasks := s.tasks.set s.current_task t }

/-- `arr[k] = v` on a fixed-length array: `none` models the Rust panic
on an out-of-bounds index. -/
def listSet : List Nat → Nat → Nat → Option (List Nat)
  | [], _, _ => none
  | _ :: xs, 0, v => some (v :: xs)
  | x :: xs, n + 1, v => (listSet xs n v).map (fun ys => x :: ys)

/-- The loop `for (key, val) in syscall_times.iter() { count[*key as usize] = *val; }`
over a dense array; `none` when some key is out of bounds. -/
def fillCounts : List (Nat × Nat) → List Nat → Option (List Nat)
  | [], arr => some arr
  | (k, v) :: rest, arr =>
    match listSet arr k v with
    | some arr2 => fillCounts rest arr2
    | none => none

/-- `TaskManager::get_current_task_info` with the dense-array width
`M = MAX_SYSCALL_NUM` and clock reading `now` passed in explicitly;
`none` models the panic on a recorded syscall id `≥ M`.  The elapsed
time is `(get_time_us() - init_time) / 1000` (the `usize` subtraction
requires `init_time ≤ now`, which the monotone clock guarantees). -/
def get_current_task_info (M now : Nat) (s : TaskManagerState) :
    Option TaskInfo :=
  let t := getTask s s.current_task
  match fillCounts t.syscall_times (List.replicate M 0) with
  | some counts =>
    some { status := t.task_status,
           syscall_times := counts,
           time := (now - t.init_time) / 1000 }
  | none => none

/-- The `lazy_static!` boot state: `cap = MAX_APP_NUM` slots, all
`UnInit` with empty counters and `init_time = 0`; the first
`n = get_num_app()` slots are then set `Ready`; `current_task = 0`. -/
def bootState (cap n : Nat) : TaskManagerState :=
  { num_app := n,
    tasks := (List.range cap).map (fun i =>
      if i < n then { defaultTCB with task_status := TaskStatus.Ready }
      else defaultTCB),
    current_task := 0 }

/-- The public operations that can run after `run_first_task`; clock
reads are the `Nat` payloads. -/
inductive Op where
  | suspendRun : Nat → Op
  | exitRun : Nat → Op
  | incCount : Nat → Op
  | getInfo : Op
deriving DecidableEq, Repr

/-- System state: still scheduling, or halted by the batch-completion
`panic!` (the manager state at the instant of the panic is kept for
inspection). -/
inductive SysState where
  | running : TaskManagerState → SysState
  | halted : TaskManagerState → SysState
deriving DecidableEq, Repr

/-- The manager state inside a `SysState`. -/
def tmOf : SysState → TaskManagerState
  | SysState.running s => s
  | SysState.halted s => s

/-- Whether the kernel has halted via batch completion. -/
def sysHalted : SysState → Bool
  | SysState.running _ => false
  | SysState.halted _ => true

/-- One public operation.  `suspend_current_and_run_next` and
`exit_current_and_run_next` are mark-then-dispatch; after a panic
nothing further executes. -/
def stepOp (o : Op) : SysState → SysState
  | SysState.halted s => SysState.halted s
  | SysState.running s =>
    match o with
    | Op.suspendRun now =>
      let s1 := mark_current_suspended s
      match run_next_task now s1 with
      | RunNextResult.switched s2 => SysState.running s2
      | RunNextResult.panicked _ => SysState.halted s1
    | Op.exitRun now =>
      let s1 := mark_current_exited s
      match run_next_task now s1 with
      | RunNextResult.switched s2 => SysState.running s2
      | RunNextResult.panicked _ => SysState.halted s1
    | Op.incCount id => SysState.running (increase_syscall_count id s)
    | Op.getInfo => SysState.running s

/-- Run a sequence of public operations. -/
def execOps (ops : List Op) (st : SysState) : SysState :=
  ops.foldl (fun acc o => stepOp o acc) st

theorem execOps_cons (o : Op) (ops : List Op) (st : SysState) :
    execOps (o :: ops) st = execOps ops (stepOp o st) := rfl

/-- The state right after boot plus the mandatory single
`run_first_task` call (clock reading `now0`). -/
def initState (cap n now0 : Nat) : SysState :=
  SysState.running (run_first_task now0 (bootState cap n))

/-- Number of TCBs whose status is `Running`. -/
def runningCount (s : TaskManagerState) : Nat :=
  s.tasks.countP (fun t => decide (t.task_status = TaskStatus.Running))

/-- How many `increase_syscall_count id` calls a trace issues while
task `i` is current (and the system is still running). -/
def callCount (i id : Nat) : List Op → SysState → Nat
  | [], _ => 0
  | o :: rest, st =>
    (match st, o with
     | SysState.running s, Op.incCount id2 =>
       if s.current_task = i ∧ id2 = id then 1 else 0
     | _, _ => 0) + callCount i id rest (stepOp o st)

/-! ## List helper lemmas -/

theorem getD_set_self {α : Type} (l : List α) (i : Nat) (a d : α)
    (h : i < l.length) : (l.set i a).getD i d = a := by
  induction l generalizing i with
  | nil => simp at h
  | cons x xs ih =>
    cases i with
    | zero => rfl
    | succ n =>
      have hn : n < xs.length := by simpa using h
      simpa [List.getD] using ih n hn

theorem getD_set_ne {α : Type} (l : List α) (i j : Nat) (a d : α)
    (h : i ≠ j) : (l.set i a).getD j d = l.getD j d := by
  induction l generalizing i j with
  | nil => simp [List.set]
  | cons x xs ih =>
    cases i with
    | zero =>
      cases j with
      | zero => exact absurd rfl h
      | succ m => rfl
    | succ n =>
      cases j with
      | zero => rfl
      | succ m =>
        have hnm : n ≠ m := fun hh => h (by rw [hh])
        simpa [List.getD] using ih n m hnm

theorem getD_of_mem {α : Type} {l : List α} {a : α} (d : α) (h : a ∈ l) :
    ∃ i, i < l.length ∧ l.getD i d = a := by
  induction l with
  | nil => cases h
  | cons x xs ih =>
    rcases List.mem_cons.mp h with h0 | hmem
    · exact ⟨0, by simp, h0.symm⟩
    · rcases ih hmem with ⟨i, hi, hget⟩
      exact ⟨i + 1, by simpa using hi, by simpa [List.getD] using hget⟩

/-- `find?` over `(List.range n).map f` returns `some j` exactly when some
`k < n` has `f k = j` satisfying the predicate while every earlier probe
fails: the "first match in scan order" characterization. -/
theorem find?_range_map_eq_some {α : Type} (p : α → Bool) :
    ∀ (n : Nat) (f : Nat → α) (j : α),
      ((List.range n).map f).find? p = some j ↔
        ∃ k, k < n ∧ f k = j ∧ p (f k) = true ∧
          ∀ i, i < k → p (f i) = false := by
  intro n
  induction n with
  | zero => intro f j; simp
  | succ m ih =>
    intro f j
    rw [List.range_succ_eq_map]
    simp only [List.map_cons, List.map_map]
    by_cases h0 : p (f 0) = true
    · rw [List.find?_cons_of_pos _ h0]
      constructor
      · intro hj
        refine ⟨0, Nat.succ_pos m, by simpa using hj, by simpa using h0, ?_⟩
        intro i hi; omega
      · rintro ⟨k, hk, hfk, hpk, hfirst⟩
        cases k with
        | zero => simpa using hfk
        | succ k' =>
          have := hfirst 0 (Nat.succ_pos k')
          rw [h0] at this; cases this
    · have h0' : p (f 0) = false := by
        cases hp : p (f 0) with
        | true => exact absurd hp h0
        | false => rfl
      rw [List.find?_cons_of_neg _ (by simp [h0'])]
      rw [ih (f ∘ Nat.succ) j]
      constructor
      · rintro ⟨k, hk, hfk, hpk, hfirst⟩
        refine ⟨k + 1, by omega, hfk, hpk, ?_⟩
        intro i hi
        cases i with
        | zero => exact h0'
        | succ i' => exact hfirst i' (by omega)
      · rintro ⟨k, hk, hfk, hpk, hfirst⟩
        cases k with
        | zero => rw [hpk] at h0'; cases h0'
        | succ k' =>
          refine ⟨k', by omega, hfk, hpk, ?_⟩
          intro i hi
          exact hfirst (i + 1) (by omega)

/-- Every residue below `n` occurs in the cyclic scan
`k ↦ (c + 1 + k) % n`, `k < n`. -/
theorem scan_covers (n c id : Nat) (hn : 1 ≤ n) (hid : id < n) :
    ∃ k, k < n ∧ (c + 1 + k) % n = id := by
  refine ⟨(id + n - (c + 1) % n) % n, Nat.mod_lt _ (by omega), ?_⟩
  have hr : (c + 1) % n < n := Nat.mod_lt _ (by omega)
  calc (c + 1 + (id + n - (c + 1) % n) % n) % n
      = ((c + 1) % n + (id + n - (c + 1) % n) % n) % n := by
        rw [Nat.mod_add_mod]
    _ = ((c + 1) % n + (id + n - (c + 1) % n)) % n := by
        rw [Nat.add_mod_mod]
    _ = (id + n) % n := by
        have : (c + 1) % n + (id + n - (c + 1) % n) = id + n := by omega
        rw [this]
    _ = id := by rw [Nat.add_mod_right, Nat.mod_eq_of_lt hid]

/-! ## Claim C1 -/

/-- C1: for every manager state with `num_app ≥ 1`, `find_next_task`
scans the ids `current+1, …, current+num_app`, each reduced modulo
`num_app`, and returns the first whose status is `Ready` (all earlier
probes are non-`Ready`); it returns `none` exactly when no task id
below `num_app` is `Ready`. -/
theorem find_next_task_correct (s : TaskManagerState) (h : 1 ≤ s.num_app) :
    (∀ j, find_next_task s = some j ↔
      ∃ k, k < s.num_app ∧ (s.current_task + 1 + k) % s.num_app = j ∧
        statusAt s j = TaskStatus.Ready ∧
        ∀ i, i < k →
          statusAt s ((s.current_task + 1 + i) % s.num_app) ≠
            TaskStatus.Ready) ∧
    (find_next_task s = none ↔
      ∀ id, id < s.num_app → statusAt s id ≠ TaskStatus.Ready) := by
  constructor
  · intro j
    rw [find_next_task, find?_range_map_eq_some]
    constructor
    · rintro ⟨k, hk, hfk, hpk, hfirst⟩
      subst hfk
      refine ⟨k, hk, rfl, of_decide_eq_true hpk, ?_⟩
      intro i hi
      exact of_decide_eq_false (hfirst i hi)
    · rintro ⟨k, hk, hfk, hready, hfirst⟩
      subst hfk
      refine ⟨k, hk, rfl, decide_eq_true hready, ?_⟩
      intro i hi
      exact decide_eq_false (hfirst i hi)
  · rw [find_next_task, List.find?_eq_none]
    constructor
    · intro hnone id hid hready
      rcases scan_covers s.num_app s.current_task id h hid with ⟨k, hk, hfk⟩
      have hmem : id ∈ (List.range s.num_app).map
          (fun k => (s.current_task + 1 + k) % s.num_app) := by
        exact List.mem_map.mpr ⟨k, List.mem_range.mpr hk, hfk⟩
      exact hnone id hmem (decide_eq_true hready)
    · intro hall x hx
      rcases List.mem_map.mp hx with ⟨k, _, hfk⟩
      subst hfk
      have : (s.current_task + 1 + k) % s.num_app < s.num_app :=
        Nat.mod_lt _ (by omega)
      simpa using hall _ this

/-- Witness for C1 at the concrete boot state with three `Ready`
tasks. -/
theorem find_next_task_correct_witness :
    find_next_task (bootState 3 3) = some 1 ∧
    (find_next_task (bootState 3 3) = none ↔
      ∀ id, id < 3 → statusAt (bootState 3 3) id ≠ TaskStatus.Ready) := by
  constructor
  · decide
  · exact (find_next_task_correct (bootState 3 3) (by decide)).2

/-! ## Per-operation frame lemmas -/

theorem statusAt_mark_suspended (s : TaskManagerState) (i : Nat)
    (h : s.current_task < s.tasks.length) :
    statusAt (mark_current_suspended s) i =
      if i = s.current_task then TaskStatus.Ready else statusAt s i := by
  by_cases hi : i = s.current_task
  · subst hi
    simp only [statusAt, getTask, mark_current_suspended, if_pos rfl]
    rw [getD_set_self _ _ _ _ h]
    simp
  · simp only [statusAt, getTask, mark_current_suspended, if_neg hi]
    rw [getD_set_ne _ _ _ _ _ (fun hh => hi hh.symm)]

theorem statusAt_mark_exited (s : TaskManagerState) (i : Nat)
    (h : s.current_task < s.tasks.length) :
    statusAt (mark_current_exited s) i =
      if i = s.current_task then TaskStatus.Exited else statusAt s i := by
  by_cases hi : i = s.current_task
  · subst hi
    simp only [statusAt, getTask, mark_current_exited, if_pos rfl]
    rw [getD_set_self _ _ _ _ h]
    simp
  · simp only [statusAt, getTask, mark_current_exited, if_neg hi]
    rw [getD_set_ne _ _ _ _ _ (fun hh => hi hh.symm)]

theorem getTask_inc_count (s : TaskManagerState) (id i : Nat) :
    (getTask (increase_syscall_count id s) i).task_status =
      (getTask s i).task_status ∧
    (getTask (increase_syscall_count id s) i).init_time =
      (getTask s i).init_time := by
  by_cases hlen : s.current_task < s.tasks.length
  · by_cases hi : i = s.current_task
    · subst hi
      simp only [getTask, increase_syscall_count]
      rw [getD_set_self _ _ _ _ hlen]
      exact ⟨rfl, rfl⟩
    · simp only [getTask, increase_syscall_count]
      rw [getD_set_ne _ _ _ _ _ (fun hh => hi hh.symm)]
      exact ⟨rfl, rfl⟩
  · simp only [getTask, increase_syscall_count]
    rw [List.set_eq_of_length_le (by omega)]
    exact ⟨rfl, rfl⟩

/-- A successful `run_next_task` dispatch, decomposed: the scheduled id
comes from `find_next_task`, becomes `Running` and current, gets its
start time stamped only if it was `0`, and every other TCB is
untouched. -/
theorem run_next_task_switched (now : Nat) (s s2 : TaskManagerState)
    (hlen : s.num_app ≤ s.tasks.length)
    (h : run_next_task now s = RunNextResult.switched s2) :
    ∃ next, find_next_task s = some next ∧ next < s.num_app ∧
      statusAt s next = TaskStatus.Ready ∧
      s2.num_app = s.num_app ∧ s2.current_task = next ∧
      s2.tasks.length = s.tasks.length ∧
      statusAt s2 next = TaskStatus.Running ∧
      (getTask s2 next).syscall_times = (getTask s next).syscall_times ∧
      (getTask s2 next).init_time =
        (if (getTask s next).init_time = 0 then now
         else (getTask s next).init_time) ∧
      (∀ i, i ≠ next → getTask s2 i = getTask s i) := by
  rcases hfind : find_next_task s with _ | next
  · rw [run_next_task, hfind] at h; cases h
  · have hmem := List.mem_of_find?_eq_some hfind
    have hp := List.find?_some hfind
    have hready : statusAt s next = TaskStatus.Ready := of_decide_eq_true hp
    have hlt : next < s.num_app := by
      rcases List.mem_map.mp hmem with ⟨k, hk, hfk⟩
      have hn : 0 < s.num_app := by
        have := List.mem_range.mp hk; omega
      subst hfk; exact Nat.mod_lt _ hn
    have hlen' : next < s.tasks.length := by omega
    rw [run_next_task, hfind] at h
    have hs2 := h
    cases hs2
    refine ⟨next, rfl, hlt, hready, rfl, rfl, by simp, ?_, ?_, ?_, ?_⟩
    · simp only [statusAt, getTask]
      rw [getD_set_self _ _ _ _ hlen']
    · simp only [getTask]
      rw [getD_set_self _ _ _ _ hlen']
    · simp only [getTask]
      rw [getD_set_self _ _ _ _ hlen']
    · intro i hi
      simp only [getTask]
      rw [getD_set_ne _ _ _ _ _ (fun hh => hi hh.symm)]

/-! ## Claim C3 -/

/-- C3: when `find_next_task` yields no `Ready` task, `run_next_task`
ends in the intentional batch-completion panic carrying the diagnostic
message "All applications completed!", and never returns a switched
state. -/
theorem run_next_task_halts_on_no_ready (now : Nat) (s : TaskManagerState)
    (h : find_next_task s = none) :
    run_next_task now s =
      RunNextResult.panicked "All applications completed!" ∧
    ∀ s2, run_next_task now s ≠ RunNextResult.switched s2 := by
  constructor
  · rw [run_next_task, h]
  · intro s2 hc
    rw [run_next_task, h] at hc
    cases hc

/-- Witness for C3: a single task that has already exited. -/
theorem run_next_task_halts_on_no_ready_witness :
    run_next_task 7
      { num_app := 1,
        tasks := [{ task_status := TaskStatus.Exited, syscall_times := [],
                    init_time := 5 }],
        current_task := 0 } =
      RunNextResult.panicked "All applications completed!" :=
  (run_next_task_halts_on_no_ready 7 _ (by decide)).1

/-! ## Claim C10 -/

/-- C10: `mark_current_suspended` sets the current task's status to
`Ready` and `mark_current_exited` sets it to `Exited`, with no
hypothesis on the previous status, and each changes nothing else: the
other fields of the current TCB, every other TCB, `current_task` and
`num_app` are unchanged. -/
theorem mark_current_frame (s : TaskManagerState)
    (h : s.current_task < s.tasks.length) :
    (mark_current_suspended s).num_app = s.num_app ∧
    (mark_current_suspended s).current_task = s.current_task ∧
    statusAt (mark_current_suspended s) s.current_task = TaskStatus.Ready ∧
    (getTask (mark_current_suspended s) s.current_task).syscall_times =
      (getTask s s.current_task).syscall_times ∧
    (getTask (mark_current_suspended s) s.current_task).init_time =
      (getTask s s.current_task).init_time ∧
    (∀ i, i ≠ s.current_task →
      getTask (mark_current_suspended s) i = getTask s i) ∧
    (mark_current_exited s).num_app = s.num_app ∧
    (mark_current_exited s).current_task = s.current_task ∧
    statusAt (mark_current_exited s) s.current_task = TaskStatus.Exited ∧
    (getTask (mark_current_exited s) s.current_task).syscall_times =
      (getTask s s.current_task).syscall_times ∧
    (getTask (mark_current_exited s) s.current_task).init_time =
      (getTask s s.current_task).init_time ∧
    (∀ i, i ≠ s.current_task →
      getTask (mark_current_exited s) i = getTask s i) := by
  refine ⟨rfl, rfl, ?_, ?_, ?_, ?_, rfl, rfl, ?_, ?_, ?_, ?_⟩
  · rw [statusAt_mark_suspended s _ h, if_pos rfl]
  · simp only [getTask, mark_current_suspended]
    rw [getD_set_self _ _ _ _ h]
  · simp only [getTask, mark_current_suspended]
    rw [getD_set_self _ _ _ _ h]
  · intro i hi
    simp only [getTask, mark_current_suspended]
    rw [getD_set_ne _ _ _ _ _ (fun hh => hi hh.symm)]
  · rw [statusAt_mark_exited s _ h, if_pos rfl]
  · simp only [getTask, mark_current_exited]
    rw [getD_set_self _ _ _ _ h]
  · simp only [getTask, mark_current_exited]
    rw [getD_set_self _ _ _ _ h]
  · intro i hi
    simp only [getTask, mark_current_exited]
    rw [getD_set_ne _ _ _ _ _ (fun hh => hi hh.symm)]

/-- Witness for C10 at a two-task boot state: note the marked task was
not even `Running` there, exercising the "unconditional" part. -/
theorem mark_current_frame_witness :
    statusAt (mark_current_suspended (bootState 2 2)) 0 = TaskStatus.Ready ∧
    statusAt (mark_current_exited (bootState 2 2)) 0 = TaskStatus.Exited := by
  have h := mark_current_frame (bootState 2 2) (by decide)
  exact ⟨h.2.2.1, h.2.2.2.2.2.2.2.2.1⟩

/-! ## The reachability invariant -/

/-- Well-formedness of a still-scheduling manager state: the populated
range fits in the pool, `current_task` is a populated index, the
current task is `Running`, and nobody else is. -/
def WfRunning (s : TaskManagerState) : Prop :=
  s.num_app ≤ s.tasks.length ∧
  s.current_task < s.num_app ∧
  statusAt s s.current_task = TaskStatus.Running ∧
  ∀ i, i ≠ s.current_task → statusAt s i ≠ TaskStatus.Running

/-- System invariant: while scheduling, exactly the current task is
`Running`; after the batch-completion halt, no task is. -/
def SysInv : SysState → Prop
  | SysState.running s => WfRunning s
  | SysState.halted s => ∀ i, statusAt s i ≠ TaskStatus.Running

theorem getD_map_range {α : Type} :
    ∀ (m i : Nat) (f : Nat → α) (d : α),
      ((List.range m).map f).getD i d = if i < m then f i else d := by
  intro m
  induction m with
  | zero => intro i f d; simp
  | succ m' ih =>
    intro i f d
    rw [List.range_succ_eq_map]
    simp only [List.map_cons, List.map_map]
    cases i with
    | zero => simp
    | succ i' =>
      rw [List.getD_cons_succ, ih i' (f ∘ Nat.succ) d]
      by_cases hi : i' < m'
      · rw [if_pos hi, if_pos (by omega)]; rfl
      · rw [if_neg hi, if_neg (by omega)]

theorem statusAt_boot (cap n i : Nat) :
    statusAt (bootState cap n) i =
      if i < n ∧ i < cap then TaskStatus.Ready else TaskStatus.UnInit := by
  simp only [statusAt, getTask, bootState]
  rw [getD_map_range]
  by_cases hc : i < cap
  · by_cases hn : i < n
    · simp [hc, hn, defaultTCB]
    · simp [hc, hn, defaultTCB]
  · simp [hc, fun h : i < n ∧ i < cap => hc h.2, defaultTCB]

theorem bootState_len (cap n : Nat) : (bootState cap n).tasks.length = cap := by
  simp [bootState]

/-- The initial state (boot + `run_first_task`) satisfies the
invariant. -/
theorem initState_inv (cap n now0 : Nat) (h1 : 1 ≤ n) (h2 : n ≤ cap) :
    SysInv (initState cap n now0) := by
  have hlen : (bootState cap n).tasks.length = cap := bootState_len cap n
  have h0len : (0 : Nat) < (bootState cap n).tasks.length := by omega
  refine ⟨?_, ?_, ?_, ?_⟩
  · show n ≤ (run_first_task now0 (bootState cap n)).tasks.length
    simp [run_first_task, hlen]; omega
  · show (0 : Nat) < n; omega
  · show statusAt (run_first_task now0 (bootState cap n)) 0 = TaskStatus.Running
    simp only [statusAt, getTask, run_first_task]
    rw [getD_set_self _ _ _ _ h0len]
  · intro i hi
    have hi0 : i ≠ 0 := hi
    show statusAt (run_first_task now0 (bootState cap n)) i ≠ TaskStatus.Running
    simp only [statusAt, getTask, run_first_task]
    rw [getD_set_ne _ 0 i _ _ (fun hh => hi0 hh.symm)]
    have := statusAt_boot cap n i
    simp only [statusAt, getTask] at this
    rw [this]
    by_cases hb : i < n ∧ i < cap
    · simp [hb]
    · simp [hb]

/-- Dispatching out of a state in which no task is `Running` restores
the invariant (either it switches to a unique new `Running` task or it
halts with none). -/
theorem run_next_restores_inv (now : Nat) (s1 : TaskManagerState)
    (hlen : s1.num_app ≤ s1.tasks.length)
    (hnone : ∀ i, statusAt s1 i ≠ TaskStatus.Running) :
    SysInv (match run_next_task now s1 with
            | RunNextResult.switched s2 => SysState.running s2
            | RunNextResult.panicked _ => SysState.halted s1) := by
  rcases hrun : run_next_task now s1 with s2 | msg
  · rcases run_next_task_switched now s1 s2 hlen hrun with
      ⟨next, _, hlt, _, hn, hc, hl, hst, _, _, hframe⟩
    refine ⟨by rw [hn, hl]; exact hlen, by rw [hn, hc]; exact hlt, ?_, ?_⟩
    · rw [hc]; exact hst
    · intro i hi
      rw [hc] at hi
      show statusAt s2 i ≠ TaskStatus.Running
      simp only [statusAt]
      rw [hframe i hi]
      exact hnone i
  · exact hnone

/-- Every public operation preserves the invariant. -/
theorem stepOp_preserves_inv (o : Op) (st : SysState) (h : SysInv st) :
    SysInv (stepOp o st) := by
  cases st with
  | halted s => exact h
  | running s =>
    obtain ⟨h2, h3, h4, h5⟩ := h
    have hclen : s.current_task < s.tasks.length := by omega
    cases o with
    | suspendRun now =>
      have hnone : ∀ i,
          statusAt (mark_current_suspended s) i ≠ TaskStatus.Running := by
        intro i
        rw [statusAt_mark_suspended s i hclen]
        by_cases hi : i = s.current_task
        · simp [hi]
        · rw [if_neg hi]; exact h5 i hi
      have hlen1 : (mark_current_suspended s).num_app ≤
          (mark_current_suspended s).tasks.length := by
        simp [mark_current_suspended]; exact h2
      exact run_next_restores_inv now (mark_current_suspended s) hlen1 hnone
    | exitRun now =>
      have hnone : ∀ i,
          statusAt (mark_current_exited s) i ≠ TaskStatus.Running := by
        intro i
        rw [statusAt_mark_exited s i hclen]
        by_cases hi : i = s.current_task
        · simp [hi]
        · rw [if_neg hi]; exact h5 i hi
      have hlen1 : (mark_current_exited s).num_app ≤
          (mark_current_exited s).tasks.length := by
        simp [mark_current_exited]; exact h2
      exact run_next_restores_inv now (mark_current_exited s) hlen1 hnone
    | incCount id =>
      have hlen1 : (increase_syscall_count id s).tasks.length =
          s.tasks.length := by
        simp [increase_syscall_count]
      refine ⟨by rw [hlen1]; exact h2, h3, ?_, ?_⟩
      · show statusAt (increase_syscall_count id s) s.current_task =
          TaskStatus.Running
        simp only [statusAt]
        rw [(getTask_inc_count s id s.current_task).1]
        exact h4
      · intro i hi
        show statusAt (increase_syscall_count id s) i ≠ TaskStatus.Running
        simp only [statusAt]
        rw [(getTask_inc_count s id i).1]
        exact h5 i hi
    | getInfo => exact ⟨h2, h3, h4, h5⟩

/-- The invariant holds along any trace. -/
theorem execOps_preserves_inv (ops : List Op) (st : SysState)
    (h : SysInv st) : SysInv (execOps ops st) := by
  induction ops generalizing st with
  | nil => exact h
  | cons o rest ih => exact ih (stepOp o st) (stepOp_preserves_inv o st h)

theorem countP_zero_of_getD {α : Type} (p : α → Bool) (d : α) (l : List α)
    (h : ∀ i, i < l.length → p (l.getD i d) = false) : l.countP p = 0 := by
  rw [List.countP_eq_zero]
  intro a ha hc
  rcases getD_of_mem d ha with ⟨i, hi, hget⟩
  rw [← hget] at hc
  rw [h i hi] at hc
  simp at hc

theorem countP_eq_one_unique {α : Type} (p : α → Bool) (d : α) :
    ∀ (l : List α) (c : Nat), c < l.length → p (l.getD c d) = true →
      (∀ i, i < l.length → i ≠ c → p (l.getD i d) = false) →
      l.countP p = 1 := by
  intro l
  induction l with
  | nil => intro c hc; simp at hc
  | cons x xs ih =>
    intro c hc hpc hother
    cases c with
    | zero =>
      have hx : p x = true := by simpa using hpc
      rw [List.countP_cons_of_pos _ _ hx]
      have hz : xs.countP p = 0 := by
        apply countP_zero_of_getD p d
        intro i hi
        have := hother (i + 1) (by simpa using hi) (by omega)
        simpa using this
      omega
    | succ c' =>
      have hx : p x = false := by simpa using hother 0 (by simp) (by omega)
      rw [List.countP_cons_of_neg _ _ (by simp [hx])]
      apply ih c' (by simpa using hc) (by simpa using hpc)
      intro i hi hic
      have := hother (i + 1) (by simpa using hi) (by omega)
      simpa using this

/-! ## Claim C2 -/

/-- C2: in every state reachable from boot (with `run_first_task`
performed first, then any sequence of public operations), exactly one
TCB is `Running` while the system is still scheduling, and exactly zero
are `Running` precisely when it has halted via batch completion. -/
theorem running_count_invariant (cap n now0 : Nat) (ops : List Op)
    (h1 : 1 ≤ n) (h2 : n ≤ cap) :
    runningCount (tmOf (execOps ops (initState cap n now0))) =
      if sysHalted (execOps ops (initState cap n now0)) then 0 else 1 := by
  have hinv := execOps_preserves_inv ops _ (initState_inv cap n now0 h1 h2)
  rcases hst : execOps ops (initState cap n now0) with s | s
  · rw [hst] at hinv
    obtain ⟨hl, hc, hr, ho⟩ := hinv
    show runningCount s = if sysHalted (SysState.running s) then 0 else 1
    simp only [sysHalted, if_neg Bool.false_ne_true, Bool.false_eq_true,
      if_false]
    apply countP_eq_one_unique _ defaultTCB _ s.current_task (by omega)
    · exact decide_eq_true hr
    · intro i hi hic
      exact decide_eq_false (ho i hic)
  · rw [hst] at hinv
    show runningCount s = if sysHalted (SysState.halted s) then 0 else 1
    simp only [sysHalted, if_pos]
    apply countP_zero_of_getD _ defaultTCB
    intro i _
    exact decide_eq_false (hinv i)

/-- Witness for C2: the one-task system right after `run_first_task`
has exactly one `Running` TCB. -/
theorem running_count_invariant_witness :
    runningCount (tmOf (execOps [] (initState 1 1 0))) =
      if sysHalted (execOps [] (initState 1 1 0)) then 0 else 1 :=
  running_count_invariant 1 1 0 [] (by decide) (by decide)

/-! ## Claim C6 -/

/-- `find_next_task` only ever returns a `Ready` task. -/
theorem find_next_task_ready (s : TaskManagerState) (j : Nat)
    (h : find_next_task s = some j) : statusAt s j = TaskStatus.Ready := by
  rw [find_next_task] at h
  have hp := List.find?_some h
  simpa using hp

/-- A task whose status is not `Ready` keeps its status across a
dispatch (it cannot be the task selected by `find_next_task`). -/
theorem statusAt_after_dispatch (now : Nat) (s1 : TaskManagerState) (i : Nat)
    (hlen : s1.num_app ≤ s1.tasks.length)
    (hnotready : statusAt s1 i ≠ TaskStatus.Ready) :
    statusAt (tmOf (match run_next_task now s1 with
        | RunNextResult.switched s2 => SysState.running s2
        | RunNextResult.panicked _ => SysState.halted s1)) i =
      statusAt s1 i := by
  rcases hrun : run_next_task now s1 with s2 | msg
  · rcases run_next_task_switched now s1 s2 hlen hrun with
      ⟨next, _, _, hready, _, _, _, _, _, _, hframe⟩
    have hne : i ≠ next := fun hh => hnotready (hh ▸ hready)
    show statusAt s2 i = statusAt s1 i
    simp only [statusAt]
    rw [hframe i hne]
  · rfl

/-- One public operation preserves an `Exited` status. -/
theorem stepOp_preserves_exited (o : Op) (st : SysState) (hinv : SysInv st)
    (i : Nat) (h : statusAt (tmOf st) i = TaskStatus.Exited) :
    statusAt (tmOf (stepOp o st)) i = TaskStatus.Exited := by
  cases st with
  | halted s => exact h
  | running s =>
    obtain ⟨h2, h3, h4, h5⟩ := hinv
    have h' : statusAt s i = TaskStatus.Exited := h
    have hclen : s.current_task < s.tasks.length := by omega
    have hic : i ≠ s.current_task := by
      intro hh
      rw [hh, h4] at h'
      cases h'
    cases o with
    | suspendRun now =>
      have hmark : statusAt (mark_current_suspended s) i = statusAt s i := by
        rw [statusAt_mark_suspended s i hclen, if_neg hic]
      have hlen1 : (mark_current_suspended s).num_app ≤
          (mark_current_suspended s).tasks.length := by
        simp [mark_current_suspended]; exact h2
      have hd := statusAt_after_dispatch now (mark_current_suspended s) i hlen1
        (by rw [hmark, h']; intro hh; cases hh)
      rw [hmark, h'] at hd
      exact hd
    | exitRun now =>
      have hmark : statusAt (mark_current_exited s) i = statusAt s i := by
        rw [statusAt_mark_exited s i hclen, if_neg hic]
      have hlen1 : (mark_current_exited s).num_app ≤
          (mark_current_exited s).tasks.length := by
        simp [mark_current_exited]; exact h2
      have hd := statusAt_after_dispatch now (mark_current_exited s) i hlen1
        (by rw [hmark, h']; intro hh; cases hh)
      rw [hmark, h'] at hd
      exact hd
    | incCount id =>
      show statusAt (increase_syscall_count id s) i = TaskStatus.Exited
      simp only [statusAt]
      rw [(getTask_inc_count s id i).1]
      exact h'
    | getInfo => exact h'

/-- Any trace preserves an `Exited` status (given the invariant). -/
theorem execOps_preserves_exited (ops : List Op) (st : SysState)
    (hinv : SysInv st) (i : Nat)
    (h : statusAt (tmOf st) i = TaskStatus.Exited) :
    statusAt (tmOf (execOps ops st)) i = TaskStatus.Exited := by
  induction ops generalizing st with
  | nil => exact h
  | cons o rest ih =>
    exact ih (stepOp o st) (stepOp_preserves_inv o st hinv)
      (stepOp_preserves_exited o st hinv i h)

/-- C6: once a task is `Exited` in a reachable state, it stays `Exited`
and `find_next_task` never returns it in any subsequently reachable
state; in particular, in the 3-task scenario where task 0 suspends,
task 1 suspends and task 2 exits, the dispatch accompanying the exit
selects task 0(and task 2 is indeed `Exited` there). -/
theorem exited_never_selected :
    (∀ cap n now0 i, ∀ ops1 ops2 : List Op, 1 ≤ n → n ≤ cap →
      statusAt (tmOf (execOps ops1 (initState cap n now0))) i =
        TaskStatus.Exited →
      statusAt (tmOf (execOps ops2 (execOps ops1 (initState cap n now0)))) i =
          TaskStatus.Exited ∧
        find_next_task
            (tmOf (execOps ops2 (execOps ops1 (initState cap n now0)))) ≠
          some i) ∧
    ((tmOf (execOps [Op.suspendRun 1, Op.suspendRun 2, Op.exitRun 3]
        (initState 3 3 0))).current_task = 0 ∧
      sysHalted (execOps [Op.suspendRun 1, Op.suspendRun 2, Op.exitRun 3]
        (initState 3 3 0)) = false ∧
      statusAt (tmOf (execOps [Op.suspendRun 1, Op.suspendRun 2, Op.exitRun 3]
        (initState 3 3 0))) 2 = TaskStatus.Exited) := by
  constructor
  · intro cap n now0 i ops1 ops2 h1 h2 hex
    have hinv1 := execOps_preserves_inv ops1 _ (initState_inv cap n now0 h1 h2)
    have hkeep := execOps_preserves_exited ops2 _ hinv1 i hex
    refine ⟨hkeep, ?_⟩
    intro hfind
    have := find_next_task_ready _ i hfind
    rw [hkeep] at this
    cases this
  · exact ⟨by decide, by decide, by decide⟩

/-- Witness for C6: instantiated at the 3-task scenario, task 2 after
its exit. -/
theorem exited_never_selected_witness :
    statusAt (tmOf (execOps []
        (execOps [Op.suspendRun 1, Op.suspendRun 2, Op.exitRun 3]
          (initState 3 3 0)))) 2 = TaskStatus.Exited ∧
      find_next_task (tmOf (execOps []
        (execOps [Op.suspendRun 1, Op.suspendRun 2, Op.exitRun 3]
          (initState 3 3 0)))) ≠ some 2 :=
  exited_never_selected.1 3 3 0 2
    [Op.suspendRun 1, Op.suspendRun 2, Op.exitRun 3] []
    (by decide) (by decide) (by decide)

/-! ## Claim C5 -/

theorem initTimeAt_mark_suspended (s : TaskManagerState) (i : Nat) :
    initTimeAt (mark_current_suspended s) i = initTimeAt s i := by
  by_cases hlen : s.current_task < s.tasks.length
  · by_cases hi : i = s.current_task
    · subst hi
      simp only [initTimeAt, getTask, mark_current_suspended]
      rw [getD_set_self _ _ _ _ hlen]
    · simp only [initTimeAt, getTask, mark_current_suspended]
      rw [getD_set_ne _ _ _ _ _ (fun hh => hi hh.symm)]
  · simp only [initTimeAt, getTask, mark_current_suspended]
    rw [List.set_eq_of_length_le (by omega)]

theorem initTimeAt_mark_exited (s : TaskManagerState) (i : Nat) :
    initTimeAt (mark_current_exited s) i = initTimeAt s i := by
  by_cases hlen : s.current_task < s.tasks.length
  · by_cases hi : i = s.current_task
    · subst hi
      simp only [initTimeAt, getTask, mark_current_exited]
      rw [getD_set_self _ _ _ _ hlen]
    · simp only [initTimeAt, getTask, mark_current_exited]
      rw [getD_set_ne _ _ _ _ _ (fun hh => hi hh.symm)]
  · simp only [initTimeAt, getTask, mark_current_exited]
    rw [List.set_eq_of_length_le (by omega)]

/-- A nonzero recorded start time survives a dispatch: `run_next_task`
stamps the clock only into a task whose `init_time` is still `0`. -/
theorem initTimeAt_after_dispatch (now : Nat) (s1 : TaskManagerState)
    (i : Nat) (hlen : s1.num_app ≤ s1.tasks.length)
    (hnz : initTimeAt s1 i ≠ 0) :
    initTimeAt (tmOf (match run_next_task now s1 with
        | RunNextResult.switched s2 => SysState.running s2
        | RunNextResult.panicked _ => SysState.halted s1)) i =
      initTimeAt s1 i := by
  rcases hrun : run_next_task now s1 with s2 | msg
  · rcases run_next_task_switched now s1 s2 hlen hrun with
      ⟨next, _, _, _, _, _, _, _, _, hinit, hframe⟩
    show initTimeAt s2 i = initTimeAt s1 i
    by_cases hi : i = next
    · subst hi
      have hnz2 : (getTask s1 i).init_time ≠ 0 := hnz
      simp only [initTimeAt]
      rw [hinit, if_neg hnz2]
    · simp only [initTimeAt]
      rw [hframe i hi]
  · rfl

/-- One public operation preserves a nonzero start time exactly. -/
theorem stepOp_preserves_init_time (o : Op) (st : SysState)
    (hinv : SysInv st) (i : Nat) (hnz : initTimeAt (tmOf st) i ≠ 0) :
    initTimeAt (tmOf (stepOp o st)) i = initTimeAt (tmOf st) i := by
  cases st with
  | halted s => rfl
  | running s =>
    obtain ⟨h2, _, _, _⟩ := hinv
    have hnz' : initTimeAt s i ≠ 0 := hnz
    cases o with
    | suspendRun now =>
      have hlen1 : (mark_current_suspended s).num_app ≤
          (mark_current_suspended s).tasks.length := by
        simp [mark_current_suspended]; exact h2
      have hd := initTimeAt_after_dispatch now (mark_current_suspended s) i
        hlen1 (by rw [initTimeAt_mark_suspended]; exact hnz')
      rw [initTimeAt_mark_suspended] at hd
      exact hd
    | exitRun now =>
      have hlen1 : (mark_current_exited s).num_app ≤
          (mark_current_exited s).tasks.length := by
        simp [mark_current_exited]; exact h2
      have hd := initTimeAt_after_dispatch now (mark_current_exited s) i
        hlen1 (by rw [initTimeAt_mark_exited]; exact hnz')
      rw [initTimeAt_mark_exited] at hd
      exact hd
    | incCount id =>
      show initTimeAt (increase_syscall_count id s) i = initTimeAt s i
      simp only [initTimeAt]
      rw [(getTask_inc_count s id i).2]
    | getInfo => rfl

/-- Any trace preserves a nonzero start time exactly. -/
theorem execOps_preserves_init_time (ops : List Op) (st : SysState)
    (hinv : SysInv st) (i v : Nat) (hv : v ≠ 0)
    (h : initTimeAt (tmOf st) i = v) :
    initTimeAt (tmOf (execOps ops st)) i = v := by
  induction ops generalizing st with
  | nil => exact h
  | cons o rest ih =>
    have hstep := stepOp_preserves_init_time o st hinv i (by rw [h]; exact hv)
    exact ih (stepOp o st) (stepOp_preserves_inv o st hinv) (by rw [hstep, h])

/-- Counterexample to C5 as stated: with the boot clock reading `0`,
`run_first_task` stamps task 0's start time with `0` at its first
transition into `Running`, and because `0` is also the "unset"
sentinel, a later dispatch of task 0 re-stamps it (here with `7`): the
start time is set twice. -/
theorem start_time_restamped_cex :
    statusAt (tmOf (initState 2 2 0)) 0 = TaskStatus.Running ∧
    initTimeAt (tmOf (initState 2 2 0)) 0 = 0 ∧
    initTimeAt (tmOf (execOps [Op.suspendRun 5, Op.suspendRun 7]
      (initState 2 2 0))) 0 = 7 :=
  ⟨by decide, by decide, by decide⟩

/-- C5 (amended): `run_next_task` stamps the clock only into a task
whose recorded start time is `0`, so once a task's `init_time` holds a
nonzero stamp, no later operation changes it.  (As stated the claim
fails only when the clock reads `0` at the first stamp, which the `0`
sentinel cannot distinguish from "unset".) -/
theorem start_time_stable_once_nonzero (cap n now0 : Nat)
    (ops1 ops2 : List Op) (i v : Nat) (h1 : 1 ≤ n) (h2 : n ≤ cap)
    (hv : v ≠ 0)
    (hset : initTimeAt (tmOf (execOps ops1 (initState cap n now0))) i = v) :
    initTimeAt (tmOf (execOps ops2 (execOps ops1 (initState cap n now0)))) i =
      v :=
  execOps_preserves_init_time ops2 _
    (execOps_preserves_inv ops1 _ (initState_inv cap n now0 h1 h2)) i v hv hset

/-- Witness for the amended C5: with a nonzero boot clock the same
two-suspend trace leaves task 0's start time untouched. -/
theorem start_time_stable_once_nonzero_witness :
    initTimeAt (tmOf (execOps [Op.suspendRun 5, Op.suspendRun 7]
      (execOps [] (initState 2 2 3)))) 0 = 3 :=
  start_time_stable_once_nonzero 2 2 3 [] [Op.suspendRun 5, Op.suspendRun 7]
    0 3 (by decide) (by decide) (by decide) (by decide)

/-! ## Claim C7 -/

theorem find?_range_map_head {α : Type} (p : α → Bool) (N : Nat)
    (f : Nat → α) (hN : 1 ≤ N) (hp : p (f 0) = true) :
    ((List.range N).map f).find? p = some (f 0) := by
  cases N with
  | zero => omega
  | succ m =>
    rw [List.range_succ_eq_map]
    simp only [List.map_cons]
    rw [List.find?_cons_of_pos _ hp]

/-- The "round-robin shape": `N` populated tasks, the current one
`Running`, every other populated one `Ready`. -/
def Uniform (s : TaskManagerState) (N cap c : Nat) : Prop :=
  s.num_app = N ∧ s.tasks.length = cap ∧ s.current_task = c ∧ c < N ∧
  statusAt s c = TaskStatus.Running ∧
  ∀ i, i < N → i ≠ c → statusAt s i = TaskStatus.Ready

/-- One suspend-then-dispatch out of the round-robin shape advances the
current task to `(c + 1) % N` and keeps the shape. -/
theorem suspendRun_uniform (now : Nat) (s : TaskManagerState)
    (N cap c : Nat) (hcap : N ≤ cap) (hu : Uniform s N cap c) :
    ∃ s2, stepOp (Op.suspendRun now) (SysState.running s) =
        SysState.running s2 ∧ Uniform s2 N cap ((c + 1) % N) := by
  obtain ⟨hn, hl, hc, hcN, _, hready⟩ := hu
  have hN : 1 ≤ N := by omega
  have hclen : s.current_task < s.tasks.length := by omega
  have hall : ∀ i, i < N → statusAt (mark_current_suspended s) i =
      TaskStatus.Ready := by
    intro i hi
    rw [statusAt_mark_suspended s i hclen]
    by_cases hic : i = s.current_task
    · rw [if_pos hic]
    · rw [if_neg hic]
      exact hready i hi (fun hh => hic (hh.trans hc.symm))
  have hfind : find_next_task (mark_current_suspended s) =
      some ((c + 1) % N) := by
    rw [find_next_task]
    have hn1 : (mark_current_suspended s).num_app = N := hn
    have hc1 : (mark_current_suspended s).current_task = c := hc
    rw [hn1, hc1]
    have hp : decide (statusAt (mark_current_suspended s)
        ((c + 1 + 0) % N) = TaskStatus.Ready) = true := by
      apply decide_eq_true
      apply hall
      exact Nat.mod_lt _ (by omega)
    rw [find?_range_map_head _ N (fun k => (c + 1 + k) % N) hN hp]
  rcases hrun : run_next_task now (mark_current_suspended s) with s2 | msg
  · have hlen1 : (mark_current_suspended s).num_app ≤
        (mark_current_suspended s).tasks.length := by
      simp [mark_current_suspended]; omega
    rcases run_next_task_switched now _ s2 hlen1 hrun with
      ⟨next, hfind2, _, _, hn2, hc2, hl2, hst2, _, _, hframe⟩
    have hnext : next = (c + 1) % N := by
      rw [hfind] at hfind2
      exact (Option.some_inj.mp hfind2).symm
    subst hnext
    refine ⟨s2, ?_, ?_, ?_, ?_, Nat.mod_lt _ (by omega), ?_, ?_⟩
    · show (match run_next_task now (mark_current_suspended s) with
        | RunNextResult.switched s2 => SysState.running s2
        | RunNextResult.panicked _ =>
            SysState.halted (mark_current_suspended s)) = SysState.running s2
      rw [hrun]
    · rw [hn2]; exact hn
    · rw [hl2]; simp [mark_current_suspended]; exact hl
    · exact hc2
    · exact hst2
    · intro i hi hic
      show statusAt s2 i = TaskStatus.Ready
      simp only [statusAt]
      rw [hframe i hic]
      exact hall i hi
  · rw [run_next_task, hfind] at hrun
    cases hrun

/-- Iterating suspend-then-dispatch `k` times from the round-robin
shape lands on current task `(c + k) % N`. -/
theorem suspend_trace_uniform (N cap : Nat) (hcap : N ≤ cap) :
    ∀ (nows : List Nat) (s : TaskManagerState) (c : Nat),
      Uniform s N cap c →
      ∃ s2, execOps (nows.map Op.suspendRun) (SysState.running s) =
          SysState.running s2 ∧ Uniform s2 N cap ((c + nows.length) % N) := by
  intro nows
  induction nows with
  | nil =>
    intro s c hu
    refine ⟨s, rfl, ?_⟩
    simp only [List.length_nil]
    have : (c + 0) % N = c := by
      rw [Nat.add_zero]
      exact Nat.mod_eq_of_lt hu.2.2.2.1
    rw [this]
    exact hu
  | cons now rest ih =>
    intro s c hu
    rcases suspendRun_uniform now s N cap c hcap hu with ⟨s1, hstep, hu1⟩
    rcases ih s1 ((c + 1) % N) hu1 with ⟨s2, hexec, hu2⟩
    refine ⟨s2, ?_, ?_⟩
    · show execOps (rest.map Op.suspendRun)
        (stepOp (Op.suspendRun now) (SysState.running s)) = SysState.running s2
      rw [hstep]
      exact hexec
    · have : ((c + 1) % N + rest.length) % N = (c + (rest.length + 1)) % N := by
        rw [Nat.mod_add_mod]
        have : c + 1 + rest.length = c + (rest.length + 1) := by omega
        rw [this]
      rw [this] at hu2
      simpa using hu2

/-- C7: with `N ≥ 1` tasks all initially `Ready` and no exits,
repeatedly performing suspend-then-dispatch cycles the current task as
`k % N` after `k` steps, so it returns to the starting task 0 exactly
at the multiples of `N`. -/
theorem round_robin_period (cap N now0 : Nat) (nows : List Nat)
    (h1 : 1 ≤ N) (h2 : N ≤ cap) :
    (tmOf (execOps (nows.map Op.suspendRun)
        (initState cap N now0))).current_task = nows.length % N ∧
    ((tmOf (execOps (nows.map Op.suspendRun)
        (initState cap N now0))).current_task = 0 ↔ N ∣ nows.length) := by
  have hu0 : Uniform (run_first_task now0 (bootState cap N)) N cap 0 := by
    have hlen : (bootState cap N).tasks.length = cap := bootState_len cap N
    have h0len : (0 : Nat) < (bootState cap N).tasks.length := by omega
    refine ⟨rfl, ?_, rfl, by omega, ?_, ?_⟩
    · simp [run_first_task, hlen]
    · simp only [statusAt, getTask, run_first_task]
      rw [getD_set_self _ _ _ _ h0len]
    · intro i hi hi0
      simp only [statusAt, getTask, run_first_task]
      rw [getD_set_ne _ 0 i _ _ (fun hh => hi0 hh.symm)]
      have := statusAt_boot cap N i
      simp only [statusAt, getTask] at this
      rw [this, if_pos ⟨hi, by omega⟩]
  rcases suspend_trace_uniform N cap h2 nows _ 0 hu0 with ⟨s2, hexec, hu2⟩
  have hcur : (tmOf (execOps (nows.map Op.suspendRun)
      (initState cap N now0))).current_task = (0 + nows.length) % N := by
    show (tmOf (execOps (nows.map Op.suspendRun)
      (SysState.running (run_first_task now0 (bootState cap N))))).current_task
        = (0 + nows.length) % N
    rw [hexec]
    exact hu2.2.2.1
  rw [Nat.zero_add] at hcur
  refine ⟨hcur, ?_⟩
  rw [hcur]
  exact Nat.dvd_iff_mod_eq_zero.symm

/-- Witness for C7: three tasks, three suspend-then-dispatch steps,
back at task 0, and 3 divides 3. -/
theorem round_robin_period_witness :
    (tmOf (execOps ([4, 5, 6].map Op.suspendRun)
        (initState 3 3 0))).current_task = 3 % 3 ∧ (3 : Nat) ∣ 3 := by
  have h := round_robin_period 3 3 0 [4, 5, 6] (by decide) (by decide)
  exact ⟨h.1, h.2.mp (by rw [h.1]; rfl)⟩

/-! ## BTreeMap lemmas -/

/-- Strictly increasing keys: the `BTreeMap` representation
invariant. -/
def KeysSorted (m : List (Nat × Nat)) : Prop :=
  List.Pairwise (fun a b => a.1 < b.1) m

theorem btreeGet_not_mem (m : List (Nat × Nat)) (id : Nat)
    (h : id ∉ m.map Prod.fst) : btreeGet m id = 0 := by
  induction m with
  | nil => rfl
  | cons kv rest ih =>
    rcases kv with ⟨k, v⟩
    have hk : id ≠ k := fun hh => h (by simp [hh])
    have hrest : id ∉ rest.map Prod.fst := fun hh => h (by simp [hh])
    simp only [btreeGet, if_neg hk]
    exact ih hrest

theorem btreeGet_incr_self (m : List (Nat × Nat)) (id : Nat)
    (hs : KeysSorted m) :
    btreeGet (btreeIncr m id) id = u32Mod (btreeGet m id + 1) := by
  induction m with
  | nil => simp [btreeIncr, btreeGet]
  | cons kv rest ih =>
    rcases kv with ⟨k, v⟩
    rcases List.pairwise_cons.mp hs with ⟨hhead, hrest⟩
    simp only [btreeIncr]
    by_cases h1 : id < k
    · rw [if_pos h1]
      have hne : id ≠ k := by omega
      have hnotrest : id ∉ rest.map Prod.fst := by
        intro hh
        rcases List.mem_map.mp hh with ⟨b, hb, hb1⟩
        have := hhead b hb
        omega
      simp [btreeGet, hne, btreeGet_not_mem rest id hnotrest]
    · rw [if_neg h1]
      by_cases h2 : id = k
      · rw [if_pos h2]
        subst h2
        simp [btreeGet]
      · rw [if_neg h2]
        simp [btreeGet, h2, ih hrest]

theorem btreeGet_incr_ne (m : List (Nat × Nat)) (id id' : Nat)
    (h : id' ≠ id) : btreeGet (btreeIncr m id) id' = btreeGet m id' := by
  induction m with
  | nil => simp [btreeIncr, btreeGet, h]
  | cons kv rest ih =>
    rcases kv with ⟨k, v⟩
    simp only [btreeIncr]
    by_cases h1 : id < k
    · rw [if_pos h1]
      simp [btreeGet, h]
    · rw [if_neg h1]
      by_cases h2 : id = k
      · rw [if_pos h2]
        subst h2
        simp [btreeGet, h]
      · rw [if_neg h2]
        by_cases h3 : id' = k
        · simp [btreeGet, h3]
        · simp [btreeGet, h3, ih]

theorem mem_keys_btreeIncr_self (m : List (Nat × Nat)) (id : Nat) :
    id ∈ (btreeIncr m id).map Prod.fst := by
  induction m with
  | nil => simp [btreeIncr]
  | cons kv rest ih =>
    rcases kv with ⟨k, v⟩
    simp only [btreeIncr]
    by_cases h1 : id < k
    · rw [if_pos h1]; simp
    · rw [if_neg h1]
      by_cases h2 : id = k
      · rw [if_pos h2]; simp [h2]
      · rw [if_neg h2]
        simp only [List.map_cons, List.mem_cons]
        exact Or.inr ih

theorem keys_btreeIncr_subset (m : List (Nat × Nat)) (id : Nat) (b : Nat × Nat)
    (h : b ∈ btreeIncr m id) : b.1 ∈ m.map Prod.fst ∨ b.1 = id := by
  induction m with
  | nil =>
    simp only [btreeIncr] at h
    rcases List.mem_singleton.mp h with rfl
    exact Or.inr rfl
  | cons kv rest ih =>
    rcases kv with ⟨k, v⟩
    simp only [btreeIncr] at h
    simp only [List.map_cons, List.mem_cons]
    by_cases h1 : id < k
    · rw [if_pos h1] at h
      rcases List.mem_cons.mp h with rfl | h'
      · exact Or.inr rfl
      · rcases List.mem_cons.mp h' with rfl | h''
        · exact Or.inl (Or.inl rfl)
        · exact Or.inl (Or.inr (List.mem_map_of_mem Prod.fst h''))
    · rw [if_neg h1] at h
      by_cases h2 : id = k
      · rw [if_pos h2] at h
        rcases List.mem_cons.mp h with rfl | h'
        · exact Or.inl (Or.inl rfl)
        · exact Or.inl (Or.inr (List.mem_map_of_mem Prod.fst h'))
      · rw [if_neg h2] at h
        rcases List.mem_cons.mp h with rfl | h'
        · exact Or.inl (Or.inl rfl)
        · rcases ih h' with hl | hr
          · exact Or.inl (Or.inr hl)
          · exact Or.inr hr

theorem keysSorted_btreeIncr (m : List (Nat × Nat)) (id : Nat)
    (hs : KeysSorted m) : KeysSorted (btreeIncr m id) := by
  induction m with
  | nil => simp [btreeIncr, KeysSorted]
  | cons kv rest ih =>
    rcases kv with ⟨k, v⟩
    rcases List.pairwise_cons.mp hs with ⟨hhead, hrest⟩
    simp only [btreeIncr]
    by_cases h1 : id < k
    · rw [if_pos h1]
      refine List.pairwise_cons.mpr ⟨?_, hs⟩
      intro b hb
      rcases List.mem_cons.mp hb with rfl | hb'
      · exact h1
      · have := hhead b hb'
        show id < b.1
        omega
    · rw [if_neg h1]
      by_cases h2 : id = k
      · rw [if_pos h2]
        exact List.pairwise_cons.mpr ⟨hhead, hrest⟩
      · rw [if_neg h2]
        refine List.pairwise_cons.mpr ⟨?_, ih hrest⟩
        intro b hb
        rcases keys_btreeIncr_subset rest id b hb with hl | hr
        · rcases List.mem_map.mp hl with ⟨b2, hb2, hb21⟩
          have := hhead b2 hb2
          show k < b.1
          omega
        · show k < b.1
          omega

/-! ## Dense-array fill lemmas -/

theorem getD_replicate {α : Type} (n i : Nat) (x : α) :
    (List.replicate n x).getD i x = x := by
  induction n generalizing i with
  | zero => rfl
  | succ n' ih =>
    cases i with
    | zero => rfl
    | succ i' =>
      rw [List.replicate_succ, List.getD_cons_succ]
      exact ih i'

theorem listSet_eq_none_iff : ∀ (arr : List Nat) (k v : Nat),
    listSet arr k v = none ↔ arr.length ≤ k := by
  intro arr
  induction arr with
  | nil => intro k v; simp [listSet]
  | cons x xs ih =>
    intro k v
    cases k with
    | zero => simp [listSet]
    | succ k' =>
      simp only [listSet, List.length_cons]
      constructor
      · intro h
        cases hh : listSet xs k' v with
        | none => have := (ih k' v).mp hh; omega
        | some ys => rw [hh] at h; simp at h
      · intro h
        rw [(ih k' v).mpr (by omega)]
        rfl

theorem listSet_spec : ∀ (arr : List Nat) (k v : Nat) (arr2 : List Nat),
    listSet arr k v = some arr2 →
    arr2.length = arr.length ∧ arr2.getD k 0 = v ∧
      ∀ i, i ≠ k → arr2.getD i 0 = arr.getD i 0 := by
  intro arr
  induction arr with
  | nil => intro k v arr2 h; cases h
  | cons x xs ih =>
    intro k v arr2 h
    cases k with
    | zero =>
      cases h
      refine ⟨by simp, by simp, ?_⟩
      intro i hi
      cases i with
      | zero => exact absurd rfl hi
      | succ i' => rfl
    | succ k' =>
      simp only [listSet] at h
      cases hh : listSet xs k' v with
      | none => rw [hh] at h; simp at h
      | some ys =>
        rw [hh] at h
        cases h
        rcases ih k' v ys hh with ⟨hlen, hself, hother⟩
        refine ⟨by simp [hlen], by simpa [List.getD_cons_succ] using hself, ?_⟩
        intro i hi
        cases i with
        | zero => rfl
        | succ i' =>
          have := hother i' (fun hh2 => hi (by rw [hh2]))
          simpa [List.getD_cons_succ] using this

theorem fillCounts_spec : ∀ (entries : List (Nat × Nat)) (arr arr2 : List Nat),
    fillCounts entries arr = some arr2 →
    arr2.length = arr.length ∧
    (∀ k v, List.Pairwise (fun a b => a.1 ≠ b.1) entries →
      (k, v) ∈ entries → arr2.getD k 0 = v) ∧
    (∀ i, i ∉ entries.map Prod.fst → arr2.getD i 0 = arr.getD i 0) := by
  intro entries
  induction entries with
  | nil =>
    intro arr arr2 h
    cases h
    exact ⟨rfl, by simp, fun i _ => rfl⟩
  | cons kv rest ih =>
    rcases kv with ⟨k, v⟩
    intro arr arr2 h
    simp only [fillCounts] at h
    cases hset : listSet arr k v with
    | none => rw [hset] at h; cases h
    | some arr1 =>
      rw [hset] at h
      rcases ih arr1 arr2 h with ⟨hlen, hmem, hnot⟩
      rcases listSet_spec arr k v arr1 hset with ⟨hlen1, hself1, hother1⟩
      refine ⟨by rw [hlen, hlen1], ?_, ?_⟩
      · intro k2 v2 hdist hmem2
        rcases List.mem_cons.mp hmem2 with heq | hmem2'
        · have hk2 : k2 = k := congrArg Prod.fst heq
          have hv2 : v2 = v := congrArg Prod.snd heq
          rw [hk2, hv2]
          have hknot : k ∉ rest.map Prod.fst := by
            intro hkk
            rcases List.mem_map.mp hkk with ⟨b, hb, hb1⟩
            exact (List.pairwise_cons.mp hdist).1 b hb hb1.symm
          rw [hnot k hknot]
          exact hself1
        · exact hmem k2 v2 (List.pairwise_cons.mp hdist).2 hmem2'
      · intro i hi
        have hik : i ≠ k := fun hh => hi (by simp [hh])
        have hirest : i ∉ rest.map Prod.fst := fun hh => hi (by simp [hh])
        rw [hnot i hirest, hother1 i hik]

theorem fillCounts_isSome_iff : ∀ (entries : List (Nat × Nat)) (arr : List Nat),
    (fillCounts entries arr).isSome = true ↔
      ∀ k, k ∈ entries.map Prod.fst → k < arr.length := by
  intro entries
  induction entries with
  | nil => intro arr; simp [fillCounts]
  | cons kv rest ih =>
    rcases kv with ⟨k, v⟩
    intro arr
    simp only [fillCounts]
    cases hset : listSet arr k v with
    | none =>
      have hk : arr.length ≤ k := (listSet_eq_none_iff arr k v).mp hset
      constructor
      · intro h; simp at h
      · intro h
        have := h k (by simp)
        omega
    | some arr1 =>
      have hk : k < arr.length := by
        by_contra hc
        rw [(listSet_eq_none_iff arr k v).mpr (by omega)] at hset
        cases hset
      have hlen1 : arr1.length = arr.length := (listSet_spec arr k v arr1 hset).1
      rw [ih arr1]
      constructor
      · intro h k2 hk2
        rw [List.map_cons] at hk2
        rcases List.mem_cons.mp hk2 with rfl | h2
        · exact hk
        · have := h k2 h2
          omega
      · intro h k2 hk2
        have := h k2 (by rw [List.map_cons]; exact List.mem_cons_of_mem _ hk2)
        omega

/-! ## Evolution of the per-task syscall maps along a trace -/

/-- `inner.tasks[i].syscall_times`. -/
def syscallTimesAt (s : TaskManagerState) (i : Nat) : List (Nat × Nat) :=
  (getTask s i).syscall_times

/-- The `u32` counter value recorded for `id` in task `i`'s map. -/
def mapValAt (st : SysState) (i id : Nat) : Nat :=
  btreeGet (syscallTimesAt (tmOf st) i) id

theorem syscallTimesAt_mark_suspended (s : TaskManagerState) (i : Nat) :
    syscallTimesAt (mark_current_suspended s) i = syscallTimesAt s i := by
  by_cases hlen : s.current_task < s.tasks.length
  · by_cases hi : i = s.current_task
    · subst hi
      simp only [syscallTimesAt, getTask, mark_current_suspended]
      rw [getD_set_self _ _ _ _ hlen]
    · simp only [syscallTimesAt, getTask, mark_current_suspended]
      rw [getD_set_ne _ _ _ _ _ (fun hh => hi hh.symm)]
  · simp only [syscallTimesAt, getTask, mark_current_suspended]
    rw [List.set_eq_of_length_le (by omega)]

theorem syscallTimesAt_mark_exited (s : TaskManagerState) (i : Nat) :
    syscallTimesAt (mark_current_exited s) i = syscallTimesAt s i := by
  by_cases hlen : s.current_task < s.tasks.length
  · by_cases hi : i = s.current_task
    · subst hi
      simp only [syscallTimesAt, getTask, mark_current_exited]
      rw [getD_set_self _ _ _ _ hlen]
    · simp only [syscallTimesAt, getTask, mark_current_exited]
      rw [getD_set_ne _ _ _ _ _ (fun hh => hi hh.symm)]
  · simp only [syscallTimesAt, getTask, mark_current_exited]
    rw [List.set_eq_of_length_le (by omega)]

/-- A dispatch never touches any task's syscall counters. -/
theorem syscallTimesAt_after_dispatch (now : Nat) (s1 : TaskManagerState)
    (i : Nat) (hlen : s1.num_app ≤ s1.tasks.length) :
    syscallTimesAt (tmOf (match run_next_task now s1 with
        | RunNextResult.switched s2 => SysState.running s2
        | RunNextResult.panicked _ => SysState.halted s1)) i =
      syscallTimesAt s1 i := by
  rcases hrun : run_next_task now s1 with s2 | msg
  · rcases run_next_task_switched now s1 s2 hlen hrun with
      ⟨next, _, _, _, _, _, _, _, hsys, _, hframe⟩
    show syscallTimesAt s2 i = syscallTimesAt s1 i
    by_cases hi : i = next
    · subst hi; exact hsys
    · simp only [syscallTimesAt]
      rw [hframe i hi]
  · rfl

theorem syscallTimesAt_inc_self (s : TaskManagerState) (id : Nat)
    (hlen : s.current_task < s.tasks.length) :
    syscallTimesAt (increase_syscall_count id s) s.current_task =
      btreeIncr (syscallTimesAt s s.current_task) id := by
  simp only [syscallTimesAt, getTask, increase_syscall_count]
  rw [getD_set_self _ _ _ _ hlen]

theorem syscallTimesAt_inc_ne (s : TaskManagerState) (id i : Nat)
    (hi : i ≠ s.current_task) :
    syscallTimesAt (increase_syscall_count id s) i = syscallTimesAt s i := by
  simp only [syscallTimesAt, getTask, increase_syscall_count]
  rw [getD_set_ne _ _ _ _ _ (fun hh => hi hh.symm)]

theorem mapValAt_suspendRun (now : Nat) (s : TaskManagerState) (i id : Nat)
    (hinv : SysInv (SysState.running s)) :
    mapValAt (stepOp (Op.suspendRun now) (SysState.running s)) i id =
      mapValAt (SysState.running s) i id := by
  obtain ⟨h2, _, _, _⟩ := hinv
  have hlen1 : (mark_current_suspended s).num_app ≤
      (mark_current_suspended s).tasks.length := by
    simp [mark_current_suspended]; exact h2
  have hd := syscallTimesAt_after_dispatch now (mark_current_suspended s) i hlen1
  rw [syscallTimesAt_mark_suspended] at hd
  simp only [mapValAt]
  rw [show syscallTimesAt (tmOf (stepOp (Op.suspendRun now)
      (SysState.running s))) i = syscallTimesAt s i from hd]
  rfl

theorem mapValAt_exitRun (now : Nat) (s : TaskManagerState) (i id : Nat)
    (hinv : SysInv (SysState.running s)) :
    mapValAt (stepOp (Op.exitRun now) (SysState.running s)) i id =
      mapValAt (SysState.running s) i id := by
  obtain ⟨h2, _, _, _⟩ := hinv
  have hlen1 : (mark_current_exited s).num_app ≤
      (mark_current_exited s).tasks.length := by
    simp [mark_current_exited]; exact h2
  have hd := syscallTimesAt_after_dispatch now (mark_current_exited s) i hlen1
  rw [syscallTimesAt_mark_exited] at hd
  simp only [mapValAt]
  rw [show syscallTimesAt (tmOf (stepOp (Op.exitRun now)
      (SysState.running s))) i = syscallTimesAt s i from hd]
  rfl

theorem mapValAt_incCount (id2 : Nat) (s : TaskManagerState) (i id : Nat)
    (hinv : SysInv (SysState.running s))
    (hsort : KeysSorted (syscallTimesAt s i)) :
    mapValAt (stepOp (Op.incCount id2) (SysState.running s)) i id =
      (if s.current_task = i ∧ id2 = id
       then u32Mod (mapValAt (SysState.running s) i id + 1)
       else mapValAt (SysState.running s) i id) := by
  obtain ⟨h2, h3, _, _⟩ := hinv
  have hclen : s.current_task < s.tasks.length := by omega
  show mapValAt (SysState.running (increase_syscall_count id2 s)) i id = _
  simp only [mapValAt]
  by_cases hi : i = s.current_task
  · subst hi
    rw [show tmOf (SysState.running (increase_syscall_count id2 s)) =
      increase_syscall_count id2 s from rfl]
    rw [syscallTimesAt_inc_self s id2 hclen]
    by_cases hid : id2 = id
    · subst hid
      rw [if_pos ⟨rfl, rfl⟩]
      exact btreeGet_incr_self _ _ hsort
    · rw [if_neg (fun hh => hid hh.2)]
      exact btreeGet_incr_ne _ _ _ (fun hh => hid hh.symm)
  · rw [show tmOf (SysState.running (increase_syscall_count id2 s)) =
      increase_syscall_count id2 s from rfl]
    rw [syscallTimesAt_inc_ne s id2 i hi]
    rw [if_neg (fun hh => hi hh.1.symm)]
    rfl

/-- All syscall maps stay strictly key-sorted along any step. -/
theorem stepOp_preserves_sorted (o : Op) (st : SysState) (hinv : SysInv st)
    (hs : ∀ j, KeysSorted (syscallTimesAt (tmOf st) j)) :
    ∀ j, KeysSorted (syscallTimesAt (tmOf (stepOp o st)) j) := by
  intro j
  cases st with
  | halted s => exact hs j
  | running s =>
    obtain ⟨h2, h3, _, _⟩ := hinv
    have hclen : s.current_task < s.tasks.length := by omega
    cases o with
    | suspendRun now =>
      have hlen1 : (mark_current_suspended s).num_app ≤
          (mark_current_suspended s).tasks.length := by
        simp [mark_current_suspended]; exact h2
      have hd := syscallTimesAt_after_dispatch now (mark_current_suspended s)
        j hlen1
      rw [syscallTimesAt_mark_suspended] at hd
      rw [show syscallTimesAt (tmOf (stepOp (Op.suspendRun now)
        (SysState.running s))) j = syscallTimesAt s j from hd]
      exact hs j
    | exitRun now =>
      have hlen1 : (mark_current_exited s).num_app ≤
          (mark_current_exited s).tasks.length := by
        simp [mark_current_exited]; exact h2
      have hd := syscallTimesAt_after_dispatch now (mark_current_exited s)
        j hlen1
      rw [syscallTimesAt_mark_exited] at hd
      rw [show syscallTimesAt (tmOf (stepOp (Op.exitRun now)
        (SysState.running s))) j = syscallTimesAt s j from hd]
      exact hs j
    | incCount id =>
      show KeysSorted (syscallTimesAt (increase_syscall_count id s) j)
      by_cases hj : j = s.current_task
      · subst hj
        rw [syscallTimesAt_inc_self s id hclen]
        exact keysSorted_btreeIncr _ _ (hs _)
      · rw [syscallTimesAt_inc_ne s id j hj]
        exact hs j
    | getInfo => exact hs j

/-- In the initial state every task's syscall map is empty. -/
theorem syscallTimesAt_init (cap n now0 i : Nat) :
    syscallTimesAt (tmOf (initState cap n now0)) i = [] := by
  have hboot : ∀ j, syscallTimesAt (bootState cap n) j = [] := by
    intro j
    simp only [syscallTimesAt, getTask, bootState]
    rw [getD_map_range]
    by_cases hc : j < cap
    · by_cases hn : j < n
      · simp [hc, hn, defaultTCB]
      · simp [hc, hn, defaultTCB]
    · simp [hc, defaultTCB]
  show syscallTimesAt (run_first_task now0 (bootState cap n)) i = []
  simp only [syscallTimesAt, getTask, run_first_task]
  by_cases h0 : (0 : Nat) < (bootState cap n).tasks.length
  · by_cases hi : i = 0
    · subst hi
      rw [getD_set_self _ _ _ _ h0]
      exact hboot 0
    · rw [getD_set_ne _ 0 i _ _ (fun hh => hi hh.symm)]
      exact hboot i
  · rw [List.set_eq_of_length_le (by omega)]
    exact hboot i

/-- All syscall maps stay strictly key-sorted along any trace. -/
theorem execOps_preserves_sorted (ops : List Op) (st : SysState)
    (hinv : SysInv st) (hs : ∀ j, KeysSorted (syscallTimesAt (tmOf st) j)) :
    ∀ j, KeysSorted (syscallTimesAt (tmOf (execOps ops st)) j) := by
  induction ops generalizing st with
  | nil => exact hs
  | cons o rest ih =>
    exact ih (stepOp o st) (stepOp_preserves_inv o st hinv)
      (stepOp_preserves_sorted o st hinv hs)

/-- The recorded counter value after a trace is the number of matching
`incCount` calls, reduced modulo `2^32` (`u32` wrap-around). -/
theorem mapValAt_exec (i id : Nat) : ∀ (ops : List Op) (st : SysState),
    SysInv st → (∀ j, KeysSorted (syscallTimesAt (tmOf st) j)) →
    mapValAt st i id < 4294967296 →
    mapValAt (execOps ops st) i id =
      (mapValAt st i id + callCount i id ops st) % 4294967296 := by
  intro ops
  induction ops with
  | nil =>
    intro st _ _ hlt
    show mapValAt st i id = (mapValAt st i id + 0) % 4294967296
    rw [Nat.add_zero, Nat.mod_eq_of_lt hlt]
  | cons o rest ih =>
    intro st hinv hsort hlt
    have hinv2 := stepOp_preserves_inv o st hinv
    have hsort2 := stepOp_preserves_sorted o st hinv hsort
    show mapValAt (execOps rest (stepOp o st)) i id = _
    cases st with
    | halted s =>
      have hstep : stepOp o (SysState.halted s) = SysState.halted s := by
        cases o <;> rfl
      have hcc : callCount i id (o :: rest) (SysState.halted s) =
          0 + callCount i id rest (stepOp o (SysState.halted s)) := rfl
      rw [hcc, Nat.zero_add]
      have hh := ih (stepOp o (SysState.halted s)) hinv2 hsort2
        (by rw [hstep]; exact hlt)
      rw [hh, hstep]
    | running s =>
      cases o with
      | suspendRun now =>
        have hstep := mapValAt_suspendRun now s i id hinv
        have hh := ih _ hinv2 hsort2 (by rw [hstep]; exact hlt)
        have hcc : callCount i id (Op.suspendRun now :: rest)
            (SysState.running s) = 0 + callCount i id rest
              (stepOp (Op.suspendRun now) (SysState.running s)) := rfl
        rw [hh, hstep, hcc, Nat.zero_add]
      | exitRun now =>
        have hstep := mapValAt_exitRun now s i id hinv
        have hh := ih _ hinv2 hsort2 (by rw [hstep]; exact hlt)
        have hcc : callCount i id (Op.exitRun now :: rest)
            (SysState.running s) = 0 + callCount i id rest
              (stepOp (Op.exitRun now) (SysState.running s)) := rfl
        rw [hh, hstep, hcc, Nat.zero_add]
      | getInfo =>
        have hstep : mapValAt (stepOp Op.getInfo (SysState.running s)) i id =
            mapValAt (SysState.running s) i id := rfl
        have hh := ih _ hinv2 hsort2 (by rw [hstep]; exact hlt)
        have hcc : callCount i id (Op.getInfo :: rest)
            (SysState.running s) = 0 + callCount i id rest
              (stepOp Op.getInfo (SysState.running s)) := rfl
        rw [hh, hstep, hcc, Nat.zero_add]
      | incCount id2 =>
        have hstep := mapValAt_incCount id2 s i id hinv (hsort i)
        have hcc : callCount i id (Op.incCount id2 :: rest)
            (SysState.running s) =
            (if s.current_task = i ∧ id2 = id then 1 else 0) +
            callCount i id rest
              (stepOp (Op.incCount id2) (SysState.running s)) := rfl
        by_cases hcond : s.current_task = i ∧ id2 = id
        · rw [if_pos hcond] at hstep
          have hlt2 : mapValAt (stepOp (Op.incCount id2)
              (SysState.running s)) i id < 4294967296 := by
            rw [hstep]
            exact Nat.mod_lt _ (by omega)
          have hh := ih _ hinv2 hsort2 hlt2
          rw [hh, hstep, hcc, if_pos hcond]
          simp only [u32Mod]
          rw [Nat.mod_add_mod]
          congr 1
          omega
        · rw [if_neg hcond] at hstep
          have hh := ih _ hinv2 hsort2 (by rw [hstep]; exact hlt)
          rw [hh, hstep, hcc, if_neg hcond, Nat.zero_add]

theorem btreeGet_of_mem (m : List (Nat × Nat)) (k v : Nat)
    (hdist : List.Pairwise (fun a b => a.1 ≠ b.1) m) (h : (k, v) ∈ m) :
    btreeGet m k = v := by
  induction m with
  | nil => cases h
  | cons kv rest ih =>
    rcases kv with ⟨k1, v1⟩
    rcases List.pairwise_cons.mp hdist with ⟨hhead, hrest⟩
    rcases List.mem_cons.mp h with heq | h'
    · have hk : k = k1 := congrArg Prod.fst heq
      have hv : v = v1 := congrArg Prod.snd heq
      simp [btreeGet, hk, hv]
    · have hk : k ≠ k1 := fun hh => (hhead (k, v) h') hh.symm
      simp only [btreeGet, if_neg hk]
      exact ih hrest h'

/-- `get_current_task_info`, written with the named field accessors. -/
theorem get_current_task_info_eq (M now : Nat) (s : TaskManagerState) :
    get_current_task_info M now s =
      (match fillCounts (syscallTimesAt s s.current_task)
          (List.replicate M 0) with
       | some counts =>
         some { status := statusAt s s.current_task,
                syscall_times := counts,
                time := (now - initTimeAt s s.current_task) / 1000 }
       | none => none) := rfl

theorem get_current_task_info_isSome (M now : Nat) (s : TaskManagerState) :
    (get_current_task_info M now s).isSome =
      (fillCounts (syscallTimesAt s s.current_task)
        (List.replicate M 0)).isSome := by
  rw [get_current_task_info_eq]
  cases fillCounts (syscallTimesAt s s.current_task) (List.replicate M 0) <;>
    rfl

/-! ## Claim C4 -/

/-- One-task state whose only counter entry is `(id, v)`, used to track
the `u32` counter across a pure increment trace. -/
def oneTaskCounterState (id v : Nat) : SysState :=
  SysState.running
    { num_app := 1,
      tasks := [{ task_status := TaskStatus.Running,
                  syscall_times := [(id, v)], init_time := 0 }],
      current_task := 0 }

theorem inc_trace (id : Nat) : ∀ (k v : Nat), v < 4294967296 →
    execOps (List.replicate k (Op.incCount id)) (oneTaskCounterState id v) =
      oneTaskCounterState id ((v + k) % 4294967296) := by
  intro k
  induction k with
  | zero =>
    intro v hv
    show oneTaskCounterState id v = oneTaskCounterState id ((v + 0) % 4294967296)
    rw [Nat.add_zero, Nat.mod_eq_of_lt hv]
  | succ k' ih =>
    intro v hv
    show execOps (List.replicate k' (Op.incCount id))
        (stepOp (Op.incCount id) (oneTaskCounterState id v)) = _
    have hstep : stepOp (Op.incCount id) (oneTaskCounterState id v) =
        oneTaskCounterState id (u32Mod (v + 1)) := by
      show SysState.running _ = SysState.running _
      simp [increase_syscall_count, oneTaskCounterState, getTask, btreeIncr]
    rw [hstep, ih (u32Mod (v + 1)) (Nat.mod_lt _ (by omega))]
    have harith : (u32Mod (v + 1) + k') % 4294967296 =
        (v + (k' + 1)) % 4294967296 := by
      simp only [u32Mod]
      rw [Nat.mod_add_mod]
      congr 1
      omega
    rw [harith]

/-- Counterexample to C4 as stated: starting from a freshly booted
single task, `2^32` calls `increase_syscall_count(5)` are issued while
it is current, yet the snapshot reports counter `0` for id 5 (the `u32`
wrapped), and `2^32 ≠ 0`. -/
theorem syscall_count_wraps_cex :
    execOps (List.replicate 4294967296 (Op.incCount 5)) (initState 1 1 0) =
      oneTaskCounterState 5 0 ∧
    get_current_task_info 16 0 (tmOf (oneTaskCounterState 5 0)) =
      some { status := TaskStatus.Running,
             syscall_times := List.replicate 16 0, time := 0 } ∧
    (4294967296 : Nat) ≠ 0 := by
  refine ⟨?_, by decide, by decide⟩
  have h1 : List.replicate 4294967296 (Op.incCount 5) =
      Op.incCount 5 :: List.replicate 4294967295 (Op.incCount 5) := by
    rw [show (4294967296 : Nat) = 4294967295 + 1 by norm_num,
      List.replicate_succ]
  rw [h1, execOps_cons]
  rw [show stepOp (Op.incCount 5) (initState 1 1 0) =
    oneTaskCounterState 5 1 by decide]
  have h2 := inc_trace 5 4294967295 1 (by omega)
  rw [show (1 + 4294967295) % 4294967296 = 0 by norm_num] at h2
  exact h2

/-- C4 (amended): in any reachable still-running state, the counter the
`TaskInfo` snapshot reports for an id below `MAX_SYSCALL_NUM` is the
number of `increase_syscall_count(id)` calls issued while the snapshot
task was current, reduced modulo `2^32` (the counters are `u32`, so
they wrap after `2^32` increments); ids never incremented read as `0`
in the dense array. -/
theorem syscall_count_mod_correct (cap n now0 M : Nat) (ops : List Op)
    (now id : Nat) (s : TaskManagerState) (info : TaskInfo)
    (h1 : 1 ≤ n) (h2 : n ≤ cap) (hid : id < M)
    (hrun : execOps ops (initState cap n now0) = SysState.running s)
    (hinfo : get_current_task_info M now s = some info) :
    info.syscall_times.getD id 0 =
      callCount s.current_task id ops (initState cap n now0) % 4294967296 := by
  have hinv0 := initState_inv cap n now0 h1 h2
  have hsort0 : ∀ j, KeysSorted
      (syscallTimesAt (tmOf (initState cap n now0)) j) := by
    intro j
    rw [syscallTimesAt_init]
    exact List.Pairwise.nil
  have hlt0 : mapValAt (initState cap n now0) s.current_task id <
      4294967296 := by
    simp only [mapValAt]
    rw [syscallTimesAt_init]
    show (0 : Nat) < 4294967296
    omega
  have hmap := mapValAt_exec s.current_task id ops (initState cap n now0)
    hinv0 hsort0 hlt0
  have hzero : mapValAt (initState cap n now0) s.current_task id = 0 := by
    simp only [mapValAt]
    rw [syscallTimesAt_init]
    rfl
  rw [hzero, Nat.zero_add, hrun] at hmap
  have hsorted : KeysSorted (syscallTimesAt s s.current_task) := by
    have := execOps_preserves_sorted ops _ hinv0 hsort0 s.current_task
    rw [hrun] at this
    exact this
  have hdist : List.Pairwise (fun a b => a.1 ≠ b.1)
      (syscallTimesAt s s.current_task) :=
    hsorted.imp (fun hab => Nat.ne_of_lt hab)
  rw [get_current_task_info_eq] at hinfo
  cases hfill : fillCounts (syscallTimesAt s s.current_task)
      (List.replicate M 0) with
  | none => rw [hfill] at hinfo; cases hinfo
  | some counts =>
    rw [hfill] at hinfo
    cases hinfo
    show counts.getD id 0 = _
    rcases fillCounts_spec _ _ _ hfill with ⟨_, hmem, hnot⟩
    by_cases hin : id ∈ (syscallTimesAt s s.current_task).map Prod.fst
    · rcases List.mem_map.mp hin with ⟨⟨k0, v0⟩, hb, hb1⟩
      have hk0 : k0 = id := hb1
      subst hk0
      rw [hmem k0 v0 hdist hb]
      rw [← hmap]
      show v0 = btreeGet (syscallTimesAt s s.current_task) k0
      rw [btreeGet_of_mem _ k0 v0 hdist hb]
    · rw [hnot id hin, getD_replicate]
      rw [← hmap]
      show (0 : Nat) = btreeGet (syscallTimesAt s s.current_task) id
      rw [btreeGet_not_mem _ id hin]

/-- Witness for the amended C4: one task, three `incCount 5` calls,
snapshot reports 3 for id 5. -/
theorem syscall_count_mod_correct_witness :
    ({ status := TaskStatus.Running,
       syscall_times := [0, 0, 0, 0, 0, 3, 0, 0], time := 0 } :
      TaskInfo).syscall_times.getD 5 0 =
      callCount 0 5 [Op.incCount 5, Op.incCount 5, Op.incCount 5]
        (initState 1 1 0) % 4294967296 :=
  syscall_count_mod_correct 1 1 0 8
    [Op.incCount 5, Op.incCount 5, Op.incCount 5] 0 5
    (tmOf (execOps [Op.incCount 5, Op.incCount 5, Op.incCount 5]
      (initState 1 1 0)))
    { status := TaskStatus.Running,
      syscall_times := [0, 0, 0, 0, 0, 3, 0, 0], time := 0 }
    (by decide) (by decide) (by decide) (by decide) (by decide)

/-! ## Claim C9 -/

theorem get_current_task_info_none (M now : Nat) (s : TaskManagerState)
    (hfill : fillCounts (syscallTimesAt s s.current_task)
      (List.replicate M 0) = none) :
    get_current_task_info M now s = none := by
  rw [get_current_task_info_eq, hfill]

/-- C9: `increase_syscall_count` accepts every `u16` id with no range
check and records it in the current task's map; and
`get_current_task_info` succeeds exactly when every recorded id is
below the dense-array width `M = MAX_SYSCALL_NUM` — any recorded id
`≥ M` makes the snapshot's dense-array fill go out of bounds
(a panic, modelled as `none`). -/
theorem syscall_id_range_safety (M now : Nat) (s : TaskManagerState)
    (id : Nat) (hid : id < 65536)
    (hlen : s.current_task < s.tasks.length) :
    id ∈ (syscallTimesAt (increase_syscall_count id s)
        s.current_task).map Prod.fst ∧
    (∀ k, k ∈ (syscallTimesAt s s.current_task).map Prod.fst → M ≤ k →
      get_current_task_info M now s = none) ∧
    ((get_current_task_info M now s).isSome = true ↔
      ∀ k, k ∈ (syscallTimesAt s s.current_task).map Prod.fst → k < M) := by
  refine ⟨?_, ?_, ?_⟩
  · rw [syscallTimesAt_inc_self s id hlen]
    exact mem_keys_btreeIncr_self _ id
  · intro k hk hM
    cases hfill : fillCounts (syscallTimesAt s s.current_task)
        (List.replicate M 0) with
    | none => exact get_current_task_info_none M now s hfill
    | some counts =>
      exfalso
      have hsome : (fillCounts (syscallTimesAt s s.current_task)
          (List.replicate M 0)).isSome = true := by rw [hfill]; rfl
      have := (fillCounts_isSome_iff _ _).mp hsome k hk
      rw [List.length_replicate] at this
      omega
  · rw [get_current_task_info_isSome, fillCounts_isSome_iff,
      List.length_replicate]

/-- Witness for C9: id 65535 (the largest `u16`) is accepted and
recorded, and the snapshot of a map holding only id 3 succeeds for
`M = 16`. -/
theorem syscall_id_range_safety_witness :
    (65535 : Nat) ∈ (syscallTimesAt (increase_syscall_count 65535
      { num_app := 1,
        tasks := [{ task_status := TaskStatus.Running,
                    syscall_times := [(3, 1)], init_time := 0 }],
        current_task := 0 }) 0).map Prod.fst ∧
    (get_current_task_info 16 0
      { num_app := 1,
        tasks := [{ task_status := TaskStatus.Running,
                    syscall_times := [(3, 1)], init_time := 0 }],
        current_task := 0 }).isSome = true := by
  have h := syscall_id_range_safety 16 0
    { num_app := 1,
      tasks := [{ task_status := TaskStatus.Running,
                  syscall_times := [(3, 1)], init_time := 0 }],
      current_task := 0 } 65535 (by decide) (by decide)
  exact ⟨h.1, h.2.2.mpr (by decide)⟩

/-! ## Claim C8 -/

/-- C8: the `time` field of the snapshot is `(now − start_time)`
truncated to whole milliseconds; with the monotone clock (so
`start_time ≤ now1 ≤ now2`) two successive snapshots of the same task
give non-decreasing values (non-negativity is inherent: the value is a
natural number, as the `usize` in the source is unsigned). -/
theorem task_info_time_correct (M now1 now2 : Nat) (s : TaskManagerState)
    (info1 info2 : TaskInfo)
    (hstart : initTimeAt s s.current_task ≤ now1)
    (hmono : now1 ≤ now2)
    (h1 : get_current_task_info M now1 s = some info1)
    (h2 : get_current_task_info M now2 s = some info2) :
    info1.time = (now1 - initTimeAt s s.current_task) / 1000 ∧
    info2.time = (now2 - initTimeAt s s.current_task) / 1000 ∧
    info1.time ≤ info2.time := by
  rw [get_current_task_info_eq] at h1 h2
  cases hfill : fillCounts (syscallTimesAt s s.current_task)
      (List.replicate M 0) with
  | none => rw [hfill] at h1; cases h1
  | some counts =>
    rw [hfill] at h1 h2
    cases h1
    cases h2
    refine ⟨rfl, rfl, ?_⟩
    show (now1 - initTimeAt s s.current_task) / 1000 ≤
      (now2 - initTimeAt s s.current_task) / 1000
    exact Nat.div_le_div_right (Nat.sub_le_sub_right hmono _)

/-- Witness for C8: one running task started at `1000`µs, snapshots at
`2500`µs and `4700`µs report 1ms and 3ms. -/
theorem task_info_time_correct_witness :
    ({ status := TaskStatus.Running, syscall_times := [0, 2, 0, 0],
       time := 1 } : TaskInfo).time = (2500 - 1000) / 1000 ∧
    ({ status := TaskStatus.Running, syscall_times := [0, 2, 0, 0],
       time := 3 } : TaskInfo).time = (4700 - 1000) / 1000 ∧
    ({ status := TaskStatus.Running, syscall_times := [0, 2, 0, 0],
       time := 1 } : TaskInfo).time ≤
      ({ status := TaskStatus.Running, syscall_times := [0, 2, 0, 0],
         time := 3 } : TaskInfo).time :=
  task_info_time_correct 4 2500 4700
    { num_app := 1,
      tasks := [{ task_status := TaskStatus.Running,
                  syscall_times := [(1, 2)], init_time := 1000 }],
      current_task := 0 }
    { status := TaskStatus.Running, syscall_times := [0, 2, 0, 0], time := 1 }
    { status := TaskStatus.Running, syscall_times := [0, 2, 0, 0], time := 3 }
    (by decide) (by decide) (by decide) (by decide)

example : find_next_task (bootState 3 3) = some 1 := by decide
example :
    (tmOf (execOps [Op.suspendRun 1, Op.suspendRun 2, Op.exitRun 3]
      (initState 3 3 0))).current_task = 0 := by decide
example :
    sysHalted (execOps [Op.exitRun 1] (initState 1 1 0)) = true := by decide
